import Mathlib

/-!
Verification development for the DC resistivity simulation module
(SimPEG/electromagnetics/static/resistivity/simulation.py).

The Python module is shallowly embedded over exact rationals: numpy float
vectors become functions `Fin n → ℚ`, scipy sparse matrices become
`Matrix (Fin m) (Fin n) ℚ`, and the external collaborators (mesh operators,
property-map derivatives, receiver projections, field-container derivatives,
the direct-solve factorization) are abstract matrix data, exactly as the
module consumes them through their documented linear interfaces.
-/

namespace SimPEGDC

open Matrix BigOperators

/-! ### Mini-survey index data

`_mini_pole_pole(survey)` (an external utility) returns `(dipoles, invs,
mini_survey)`: `invs` is a 4-tuple of integer index arrays into the reduced
(mini) data vector and `dipoles` a pair of boolean masks over the original
(full) data vector.  `invs[0]` has one entry per original datum; `invs[1]`
is aligned with the positions where `dipoles[0]` is True, `invs[2]` with
`dipoles[1]`, and `invs[3]` with `dipoles[0] & dipoles[1]`.  We embed that
alignment by total functions read only under the corresponding flag. -/
structure MiniSurvey (nFull nMini : ℕ) where
  invs0 : Fin nFull → Fin nMini
  invs1 : Fin nFull → Fin nMini
  invs2 : Fin nFull → Fin nMini
  invs3 : Fin nFull → Fin nMini
  dip0 : Fin nFull → Bool
  dip1 : Fin nFull → Bool

/-- `BaseDCSimulation._mini_survey_data` (simulation.py:235-243), active
branch.  The four sequential numpy statements are mirrored one by one:
`out = d_mini[invs[0]]`, then `out[dipoles[0]] -= d_mini[invs[1]]`,
`out[dipoles[1]] -= d_mini[invs[2]]`,
`out[dipoles[0] & dipoles[1]] += d_mini[invs[3]]`. -/
def miniSurveyData {nFull nMini : ℕ} (ms : MiniSurvey nFull nMini)
    (d : Fin nMini → ℚ) : Fin nFull → ℚ :=
  let out0 : Fin nFull → ℚ := fun i => d (ms.invs0 i)
  let out1 : Fin nFull → ℚ := fun i =>
    if ms.dip0 i then out0 i - d (ms.invs1 i) else out0 i
  let out2 : Fin nFull → ℚ := fun i =>
    if ms.dip1 i then out1 i - d (ms.invs2 i) else out1 i
  fun i => if ms.dip0 i && ms.dip1 i then out2 i + d (ms.invs3 i) else out2 i

/-- `BaseDCSimulation._mini_survey_dataT` (simulation.py:245-257), active
branch.  `np.add.at` / `np.subtract.at` accumulate over every occurrence of a
target index (scatter-add), so the value at a mini index `j` is the sum of
all contributions scattered to `j`. -/
def miniSurveyDataT {nFull nMini : ℕ} (ms : MiniSurvey nFull nMini)
    (v : Fin nFull → ℚ) : Fin nMini → ℚ :=
  fun j =>
    (∑ i, if ms.invs0 i = j then v i else 0)
      - (∑ i, if ms.dip0 i = true ∧ ms.invs1 i = j then v i else 0)
      - (∑ i, if ms.dip1 i = true ∧ ms.invs2 i = j then v i else 0)
      + (∑ i, if (ms.dip0 i = true ∧ ms.dip1 i = true) ∧ ms.invs3 i = j
          then v i else 0)

/-- The expansion `_mini_survey_data` as a (full × mini) matrix. -/
def miniSurveyMatrix {nFull nMini : ℕ} (ms : MiniSurvey nFull nMini) :
    Matrix (Fin nFull) (Fin nMini) ℚ :=
  fun i j =>
    (if ms.invs0 i = j then 1 else 0)
      - (if ms.dip0 i = true ∧ ms.invs1 i = j then 1 else 0)
      - (if ms.dip1 i = true ∧ ms.invs2 i = j then 1 else 0)
      + (if (ms.dip0 i = true ∧ ms.dip1 i = true) ∧ ms.invs3 i = j
          then (1 : ℚ) else 0)

theorem sum_ite_and_eq {n : ℕ} (P : Prop) [Decidable P] (a : Fin n)
    (d : Fin n → ℚ) :
    (∑ j, if P ∧ a = j then d j else 0) = if P then d a else 0 := by
  by_cases hP : P
  · simp [hP]
  · simp [hP]

theorem miniSurveyData_eq_mulVec {nFull nMini : ℕ} (ms : MiniSurvey nFull nMini)
    (d : Fin nMini → ℚ) :
    miniSurveyData ms d = miniSurveyMatrix ms *ᵥ d := by
  funext i
  simp only [miniSurveyData, miniSurveyMatrix, Matrix.mulVec, dotProduct]
  simp only [sub_mul, add_mul, ite_mul, one_mul, zero_mul,
    Finset.sum_add_distrib, Finset.sum_sub_distrib]
  rw [sum_ite_and_eq (ms.dip0 i = true) (ms.invs1 i) d,
    sum_ite_and_eq (ms.dip1 i = true) (ms.invs2 i) d,
    sum_ite_and_eq (ms.dip0 i = true ∧ ms.dip1 i = true) (ms.invs3 i) d]
  have h0 : (∑ j, if ms.invs0 i = j then d j else 0) = d (ms.invs0 i) := by
    simp
  rw [h0]
  cases hb0 : ms.dip0 i <;> cases hb1 : ms.dip1 i <;> simp [hb0, hb1]

theorem miniSurveyDataT_eq_vecMul {nFull nMini : ℕ}
    (ms : MiniSurvey nFull nMini) (v : Fin nFull → ℚ) :
    miniSurveyDataT ms v = v ᵥ* miniSurveyMatrix ms := by
  funext j
  simp only [miniSurveyDataT, miniSurveyMatrix, Matrix.vecMul, dotProduct]
  simp only [mul_sub, mul_add, mul_ite, mul_one, mul_zero,
    Finset.sum_add_distrib, Finset.sum_sub_distrib]

/-- Claim C3: when a mini-survey is active, the i-th entry of the expanded
data equals `d[invs0[i]]`, minus `d[invs1[.]]` where dipole flag 0 holds,
minus `d[invs2[.]]` where dipole flag 1 holds, plus `d[invs3[.]]` where both
flags hold — the reciprocity combination V(AB,MN) = V(A,M) − V(A,N) − V(B,M)
+ V(B,N) with a missing electrode's term contributing zero. -/
theorem claim_C3 {nFull nMini : ℕ} (ms : MiniSurvey nFull nMini)
    (d : Fin nMini → ℚ) (i : Fin nFull) :
    miniSurveyData ms d i =
      d (ms.invs0 i)
        - (if ms.dip0 i then d (ms.invs1 i) else 0)
        - (if ms.dip1 i then d (ms.invs2 i) else 0)
        + (if ms.dip0 i && ms.dip1 i then d (ms.invs3 i) else 0) := by
  simp only [miniSurveyData]
  cases hb0 : ms.dip0 i <;> cases hb1 : ms.dip1 i <;> simp [hb0, hb1]

/-- Claim C2: when a mini-survey is active, `_mini_survey_dataT` is the
linear adjoint (transpose) of `_mini_survey_data`: for every reduced-space
vector x and every full-data-space vector y,
dot(expand_data(x), y) = dot(x, reduce_data(y)).  The scatter-add
accumulation over repeated pole indices is what makes the transpose exact. -/
theorem claim_C2 {nFull nMini : ℕ} (ms : MiniSurvey nFull nMini)
    (x : Fin nMini → ℚ) (y : Fin nFull → ℚ) :
    dotProduct (miniSurveyData ms x) y = dotProduct x (miniSurveyDataT ms y) := by
  rw [miniSurveyData_eq_mulVec, miniSurveyDataT_eq_vecMul]
  rw [dotProduct_comm, dotProduct_mulVec, dotProduct_comm]

/-- The mini-survey index data `_mini_pole_pole` produces for a single
dipole-dipole datum with four distinct poles AM, AN, BM, BN. -/
def msC1 : MiniSurvey 1 4 :=
  { invs0 := ![0], invs1 := ![1], invs2 := ![2], invs3 := ![3],
    dip0 := ![true], dip1 := ![true] }

/-- Counterexample to claim C1 as stated: for the mini survey of a single
dipole-dipole datum over four distinct poles, reduce(expand(x)) at
x = (1,0,0,0) gives (1,−1,−1,1) ≠ x — the reduction is the transpose of the
expansion, not its left inverse. -/
theorem claim_C1_counterexample :
    miniSurveyDataT msC1 (miniSurveyData msC1 ![1, 0, 0, 0]) ≠ ![1, 0, 0, 0] := by
  have hval : miniSurveyDataT msC1 (miniSurveyData msC1 ![1, 0, 0, 0]) 1 = -1 := by
    norm_num [miniSurveyDataT, miniSurveyData, msC1, Fin.sum_univ_succ,
      Fin.ext_iff]
    decide
  intro h
  rw [h] at hval
  norm_num at hval

/-- Claim C1 (amended): the round-trip reduce(expand(x)) = x holds in the
no-dipole-redundancy passthrough case — no dipole flags set and `invs0` a
bijective relabeling — and not in general, since `_mini_survey_dataT` is the
adjoint, not the inverse, of `_mini_survey_data`. -/
theorem claim_C1 {nFull nMini : ℕ} (ms : MiniSurvey nFull nMini)
    (h0 : ∀ i, ms.dip0 i = false) (h1 : ∀ i, ms.dip1 i = false)
    (hbij : Function.Bijective ms.invs0) (x : Fin nMini → ℚ) :
    miniSurveyDataT ms (miniSurveyData ms x) = x := by
  funext j
  obtain ⟨i0, hi0⟩ := hbij.surjective j
  have hcond : ∀ i : Fin nFull, (ms.invs0 i = j) ↔ (i = i0) := by
    intro i
    constructor
    · intro h
      exact hbij.injective (h.trans hi0.symm)
    · intro h
      rw [h, hi0]
  simp only [miniSurveyDataT, miniSurveyData, h0, h1]
  simp only [Bool.false_eq_true, false_and, and_false, if_false,
    Finset.sum_const_zero, Bool.false_and]
  simp only [hcond]
  simp [hi0]

/-- A passthrough mini survey on two data points. -/
def msC1pass : MiniSurvey 2 2 :=
  { invs0 := ![0, 1], invs1 := ![0, 0], invs2 := ![0, 0], invs3 := ![0, 0],
    dip0 := ![false, false], dip1 := ![false, false] }

/-- Witness for the amended claim C1 at a concrete passthrough survey. -/
theorem claim_C1_witness :
    ((∀ i, msC1pass.dip0 i = false) ∧ (∀ i, msC1pass.dip1 i = false)
        ∧ Function.Bijective msC1pass.invs0)
      ∧ miniSurveyDataT msC1pass (miniSurveyData msC1pass ![3, 5]) = ![3, 5] :=
  ⟨⟨by decide, by decide, by decide⟩,
    claim_C1 msC1pass (by decide) (by decide) (by decide) ![3, 5]⟩

/-! ### System assembly: getA and the first-row nullspace pivot -/

inductive BCType where
  | Dirichlet
  | Neumann
  | Mixed
deriving DecidableEq

/-- Effect of the row-surgery loop in getA: sp.sparse.find lists the stored
entries of row 0, the loop sets each of them to 0 (unstored entries are
already 0), so afterwards row 0 is identically zero. -/
def zeroFirstRow {n m : ℕ} (A : Matrix (Fin (n + 1)) (Fin m) ℚ) :
    Matrix (Fin (n + 1)) (Fin m) ℚ :=
  fun i j => if i = 0 then 0 else A i j

/-- The assignment A[0, 0] = 1.0 after the row has been zeroed. -/
def setUnitPivot {n m : ℕ} (A : Matrix (Fin (n + 1)) (Fin (m + 1)) ℚ) :
    Matrix (Fin (n + 1)) (Fin (m + 1)) ℚ :=
  fun i j => if i = 0 ∧ j = 0 then 1 else A i j

/-- Simulation3DNodal.getA (simulation.py:482-498):
A = Grad.T @ MeSigma @ Grad, then the nullspace handling zeroes row 0 and
sets A[0,0] = 1, unconditionally. -/
def nodalGetA {n nE : ℕ} (MeSigma : Matrix (Fin nE) (Fin nE) ℚ)
    (Grad : Matrix (Fin nE) (Fin (n + 1)) ℚ) :
    Matrix (Fin (n + 1)) (Fin (n + 1)) ℚ :=
  setUnitPivot (zeroFirstRow (Gradᵀ * MeSigma * Grad))

/-- Simulation3DCellCentered.getA (simulation.py:275-296):
A = D @ MfRhoI @ G; the row-0 surgery runs only when bc_type is Neumann. -/
def ccGetA {n nF : ℕ} (bc : BCType) (Div : Matrix (Fin (n + 1)) (Fin nF) ℚ)
    (MfRhoI : Matrix (Fin nF) (Fin nF) ℚ)
    (Grad : Matrix (Fin nF) (Fin (n + 1)) ℚ) :
    Matrix (Fin (n + 1)) (Fin (n + 1)) ℚ :=
  match bc with
  | BCType.Neumann => setUnitPivot (zeroFirstRow (Div * MfRhoI * Grad))
  | _ => Div * MfRhoI * Grad

/-- Claim C6: getA of the nodal formulation always, and getA of the
cell-centered formulation exactly when bc_type is Neumann, returns the
assembled operator with its first row zeroed except a unit pivot at (0,0),
leaving all other rows as assembled; for the cell-centered formulation with
Dirichlet or Mixed bc_type no first-row modification is applied. -/
theorem claim_C6 {n nE nF : ℕ} (MeSigma : Matrix (Fin nE) (Fin nE) ℚ)
    (Grad : Matrix (Fin nE) (Fin (n + 1)) ℚ)
    (Div : Matrix (Fin (n + 1)) (Fin nF) ℚ)
    (MfRhoI : Matrix (Fin nF) (Fin nF) ℚ)
    (GradCC : Matrix (Fin nF) (Fin (n + 1)) ℚ) :
    (∀ i j, nodalGetA MeSigma Grad i j =
        if i = 0 then (if j = 0 then 1 else 0)
        else (Gradᵀ * MeSigma * Grad) i j)
      ∧ (∀ i j, ccGetA BCType.Neumann Div MfRhoI GradCC i j =
          if i = 0 then (if j = 0 then 1 else 0)
          else (Div * MfRhoI * GradCC) i j)
      ∧ ccGetA BCType.Dirichlet Div MfRhoI GradCC = Div * MfRhoI * GradCC
      ∧ ccGetA BCType.Mixed Div MfRhoI GradCC = Div * MfRhoI * GradCC := by
  refine ⟨?_, ?_, rfl, rfl⟩ <;> intro i j <;>
    by_cases hi : i = 0 <;> by_cases hj : j = 0 <;>
      simp [nodalGetA, ccGetA, setUnitPivot, zeroFirstRow, hi, hj]

/-! ### getJtJdiag and its cache -/

/-- The computation inside the cache-miss branch of getJtJdiag
(simulation.py:82-92): with W omitted the weights are np.ones; otherwise
W.diagonal() ** 2; then diag accumulates W[i] * (J[i] * J[i]) over rows. -/
def getJtJdiagCompute {nD nM : ℕ} (J : Matrix (Fin nD) (Fin nM) ℚ)
    (W : Option (Fin nD → ℚ)) : Fin nM → ℚ :=
  let Wv : Fin nD → ℚ :=
    match W with
    | none => fun _ => 1
    | some Wdiag => fun i => Wdiag i ^ 2
  fun j => ∑ i, Wv i * (J i j * J i j)

/-- BaseDCSimulation.getJtJdiag (simulation.py:77-94): if the cached
gtgdiag is None, compute and store it; in every case return the cache.
State is the gtgdiag slot; the result pairs the returned vector with the
updated slot. -/
def getJtJdiag {nD nM : ℕ} (J : Matrix (Fin nD) (Fin nM) ℚ)
    (W : Option (Fin nD → ℚ)) (gtgdiag : Option (Fin nM → ℚ)) :
    (Fin nM → ℚ) × Option (Fin nM → ℚ) :=
  match gtgdiag with
  | some dcache => (dcache, some dcache)
  | none =>
    let d := getJtJdiagCompute J W
    (d, some d)

/-- BaseDCSimulation.deleteTheseOnModelUpdate (simulation.py:226-233) lists
gtgdiag (when set), so a model update clears the cache slot. -/
def deleteTheseOnModelUpdate {nM : ℕ} (_gtgdiag : Option (Fin nM → ℚ)) :
    Option (Fin nM → ℚ) :=
  none

/-- Claim C7: for every weight matrix W (given by its diagonal), a
cache-miss getJtJdiag call returns the vector whose j-th entry is the sum
over data rows i of the squared W diagonal times J[i,j] squared, which is
diag(Jᵀ W² J); the result is cached and returned unchanged by later calls
until a model update clears the cache, after which it is recomputed. -/
theorem claim_C7 {nD nM : ℕ} (J : Matrix (Fin nD) (Fin nM) ℚ)
    (Wd : Fin nD → ℚ) :
    ((getJtJdiag J (some Wd) none).1
        = fun j => ∑ i, Wd i ^ 2 * (J i j * J i j))
      ∧ ((getJtJdiag J (some Wd) none).1
          = fun j => (Jᵀ * Matrix.diagonal (fun i => Wd i ^ 2) * J).diag j)
      ∧ (∀ W', (getJtJdiag J W' (getJtJdiag J (some Wd) none).2).1
          = (getJtJdiag J (some Wd) none).1)
      ∧ (∀ W', (getJtJdiag J W'
            (deleteTheseOnModelUpdate (getJtJdiag J (some Wd) none).2)).1
          = getJtJdiagCompute J W') := by
  refine ⟨rfl, ?_, fun W' => rfl, fun W' => rfl⟩
  funext j
  show (∑ i, Wd i ^ 2 * (J i j * J i j))
      = (Jᵀ * Matrix.diagonal (fun i => Wd i ^ 2) * J).diag j
  rw [Matrix.mul_assoc]
  simp only [Matrix.diag_apply, Matrix.mul_apply, Matrix.transpose_apply]
  refine Finset.sum_congr rfl ?_
  intro i _
  have hrow : (∑ x, Matrix.diagonal (fun i => Wd i ^ 2) i x * J x j)
      = Wd i ^ 2 * J i j := by
    simp [Matrix.diagonal_apply, ite_mul, Finset.sum_ite_eq]
  rw [hrow]
  ring

/-- Claim C10: once getJtJdiag has cached its result, every later call
without an intervening model change returns the cached vector regardless of
the weight argument: calls with different weights return the same vector,
namely the first call's result. -/
theorem claim_C10 {nD nM : ℕ} (J : Matrix (Fin nD) (Fin nM) ℚ)
    (W0 W1 W2 : Option (Fin nD → ℚ)) :
    ((getJtJdiag J W1 (getJtJdiag J W0 none).2).1
        = (getJtJdiag J W0 none).1)
      ∧ ((getJtJdiag J W1 (getJtJdiag J W0 none).2).1
          = (getJtJdiag J W2 (getJtJdiag J W0 none).2).1) :=
  ⟨rfl, rfl⟩

/-! ### setBC, Mixed boundary condition (cell-centered, 3-D)

The reference location is xs = np.median(mesh.vectorCCx),
ys = np.median(mesh.vectorCCy), zs = mesh.vectorCCz[-1] (top-most cell
center); here xs, ys, zs are taken as parameters.  r_boundary
(simulation.py:401-404) returns 1.0/np.sqrt of the squared distance, i.e.
the RECIPROCAL distance, and only its square is ever used, so we embed that
square exactly over ℚ: (1/sqrt s)² = 1/s. -/
def r_boundary_sq (xs ys zs x y z : ℚ) : ℚ :=
  1 / ((x - xs) ^ 2 + (y - ys) ^ 2 + (z - zs) ^ 2)

/-- alpha_xm of the Mixed branch (simulation.py:412):
(gBFxm[:, 0] - xs) / rxm ** 2, per x- boundary face center (x, y, z).
The x+, y-, y+ and z- coefficients follow the same pattern in their
coordinate (simulation.py:413-416). -/
def alpha_xm_mixed (xs ys zs x y z : ℚ) : ℚ :=
  (x - xs) / r_boundary_sq xs ys zs x y z

/-- alpha_zp of the Mixed branch (simulation.py:417): zero (top face is
Neumann). -/
def alpha_zp_mixed : ℚ := 0

/-- beta of the Mixed branch (simulation.py:419-421): one on every side. -/
def beta_mixed : ℚ := 1

/-- gamma of the Mixed branch (simulation.py:423-425): zero on every side. -/
def gamma_mixed : ℚ := 0

/-- Modelled from the spec: the claimed Mixed coefficient
alpha = (coordinate − reference)/r² with r the distance from the boundary
face center to the reference source location (the Dey–Morrison radiation
coefficient, which the code's own comment at simulation.py:389-391 also
states as alpha = 1/r * dr/dn). -/
def alphaClaimed_xm (xs ys zs x y z : ℚ) : ℚ :=
  (x - xs) * r_boundary_sq xs ys zs x y z

/-- Claim C8, evaluated at the failing input: with reference point (0,0,0)
and an x- boundary face centered at (2,0,0), the code assigns
alpha = (x − xs)·dist² = 8 (because r_boundary is the reciprocal distance
and alpha divides by its square), while the claimed formula
(x − xs)/dist² gives 1/2; beta = 1 and gamma = 0 as claimed. -/
theorem claim_C8 :
    alpha_xm_mixed 0 0 0 2 0 0 = 8
      ∧ alphaClaimed_xm 0 0 0 2 0 0 = 1 / 2
      ∧ alpha_xm_mixed 0 0 0 2 0 0 ≠ alphaClaimed_xm 0 0 0 2 0 0
      ∧ alpha_zp_mixed = 0 ∧ beta_mixed = 1 ∧ gamma_mixed = 0 := by
  norm_num [alpha_xm_mixed, alphaClaimed_xm, r_boundary_sq, alpha_zp_mixed,
    beta_mixed, gamma_mixed]

/-! ### Factorization lifecycle in fields() -/

inductive SolverEvent where
  | clean (id : ℕ)
  | factorize (id : ℕ)
deriving DecidableEq

/-- One fields() call (simulation.py:40-54) as a resource trace: if
self.Ainv is not None it is cleaned first, then a fresh factorization is
built and stored in self.Ainv.  State = (held factorization id, next fresh
id); the returned list is the ordered solver-service events of the call. -/
def fieldsCall : Option ℕ × ℕ → List SolverEvent × (Option ℕ × ℕ)
  | (some i, nxt) =>
    ([SolverEvent.clean i, SolverEvent.factorize nxt], (some nxt, nxt + 1))
  | (none, nxt) => ([SolverEvent.factorize nxt], (some nxt, nxt + 1))

/-- The event trace of n successive fields() calls on a fresh simulation
(Ainv = None initially, simulation.py:28). -/
def fieldsTrace : ℕ → List SolverEvent × (Option ℕ × ℕ)
  | 0 => ([], (none, 0))
  | n + 1 =>
    let p := fieldsTrace n
    let c := fieldsCall p.2
    (p.1 ++ c.1, c.2)

def liveStep (s : Finset ℕ) : SolverEvent → Finset ℕ
  | SolverEvent.factorize i => insert i s
  | SolverEvent.clean i => s.erase i

/-- The set of live (factorized, not yet cleaned) factorizations after a
list of solver events. -/
def liveSet (evs : List SolverEvent) : Finset ℕ :=
  evs.foldl liveStep ∅

theorem fieldsTrace_state (n : ℕ) :
    (fieldsTrace n).2 = (if n = 0 then none else some (n - 1), n) := by
  induction n with
  | zero => rfl
  | succ m ih =>
    show (fieldsCall (fieldsTrace m).2).2 = _
    rw [ih]
    cases m with
    | zero => rfl
    | succ k => rfl

theorem liveSet_append (l₁ l₂ : List SolverEvent) :
    liveSet (l₁ ++ l₂) = l₂.foldl liveStep (liveSet l₁) :=
  List.foldl_append _ _ _ _

theorem fieldsTrace_liveSet (n : ℕ) :
    liveSet (fieldsTrace n).1 = if n = 0 then ∅ else {n - 1} := by
  induction n with
  | zero => rfl
  | succ m ih =>
    have hfst : (fieldsTrace (m + 1)).1
        = (fieldsTrace m).1 ++ (fieldsCall (fieldsTrace m).2).1 := rfl
    rw [hfst, liveSet_append, fieldsTrace_state m]
    cases m with
    | zero => rfl
    | succ k =>
      simp only [Nat.succ_ne_zero, if_false] at ih ⊢
      show liveStep (liveStep (liveSet (fieldsTrace (k + 1)).1)
          (SolverEvent.clean (k + 1 - 1))) (SolverEvent.factorize (k + 1)) = _
      rw [ih]
      simp [liveStep]

/-- Claim C9: every fields() call that builds a new factorization first
cleans the previously held one, so along the solver-event trace of any
number of fields() calls, at every intermediate point at most one
factorization is live — the simulation never holds two live factorizations
at once. -/
theorem claim_C9 (n k : ℕ) :
    (liveSet (((fieldsTrace n).1).take k)).card ≤ 1 := by
  induction n generalizing k with
  | zero =>
    show (liveSet (List.take k ([] : List SolverEvent))).card ≤ 1
    rw [List.take_nil]
    decide
  | succ m ih =>
    have hfst : (fieldsTrace (m + 1)).1
        = (fieldsTrace m).1 ++ (fieldsCall (fieldsTrace m).2).1 := rfl
    rw [hfst, List.take_append_eq_append_take, liveSet_append]
    by_cases hk : k ≤ (fieldsTrace m).1.length
    · rw [Nat.sub_eq_zero_of_le hk]
      simpa using ih k
    · push_neg at hk
      rw [List.take_of_length_le (le_of_lt hk)]
      rw [fieldsTrace_state m]
      cases m with
      | zero =>
        have h2 : (fieldsCall (if (0 : ℕ) = 0 then none
            else some (0 - 1), (0 : ℕ))).1 = [SolverEvent.factorize 0] := rfl
        rw [h2]
        have h1 : liveSet (fieldsTrace 0).1 = ∅ := rfl
        rw [h1]
        cases hsub : k - (fieldsTrace 0).1.length with
        | zero => simp [liveSet]
        | succ j =>
          have h3 : List.take (j + 1) [SolverEvent.factorize 0]
              = [SolverEvent.factorize 0] := by
            simp
          rw [h3]
          simp [liveStep]
      | succ p =>
        have hlive : liveSet (fieldsTrace (p + 1)).1 = {p} := by
          rw [fieldsTrace_liveSet]
          simp
        have hcval : (fieldsCall (if p + 1 = 0 then none
            else some (p + 1 - 1), p + 1)).1
            = [SolverEvent.clean p, SolverEvent.factorize (p + 1)] := rfl
        rw [hcval, hlive]
        cases hsub : k - (fieldsTrace (p + 1)).1.length with
        | zero => simp
        | succ j =>
          cases j with
          | zero =>
            have h3 : List.take 1
                [SolverEvent.clean p, SolverEvent.factorize (p + 1)]
                = [SolverEvent.clean p] := rfl
            rw [h3]
            simp [liveStep]
          | succ j' =>
            have h3 : List.take (j' + 1 + 1)
                [SolverEvent.clean p, SolverEvent.factorize (p + 1)]
                = [SolverEvent.clean p, SolverEvent.factorize (p + 1)] := by
              simp
            rw [h3]
            simp [liveStep]

/-! ### Sensitivity engine: Jvec / Jtvec, storeJ true vs false

The engine loops (simulation.py:96-199) consume external collaborators
through linear interfaces: the receiver projection P (rx.getP /
rx.evalDeriv, adjoint mode applying the transpose), the field-container
derivative functions (forward (source, du, v) ↦ Fu·du + Fm·v, adjoint
returning (Fuᵀ·PTv, Fmᵀ·PTv)), and the cached factorization Ainv applied as
a matrix.  The survey loop over sources and receivers is flattened to one
entry per datum of the (mini) survey; each datum row carries the field
solution of its source and its own projection row, which subsumes the
grouped iteration because every step is linear. -/

inductive DCForm (nU nF nM : ℕ) where
  | cc (Div : Matrix (Fin nU) (Fin nF) ℚ) (Grad : Matrix (Fin nF) (Fin nU) ℚ)
      (MfRhoIDeriv : (Fin nF → ℚ) → Matrix (Fin nF) (Fin nM) ℚ)
  | nodal (Grad : Matrix (Fin nF) (Fin nU) ℚ)
      (MeSigmaDeriv : (Fin nF → ℚ) → Matrix (Fin nF) (Fin nM) ℚ)

/-- getADeriv, forward mode.  Cell-centered (simulation.py:298-306):
D * MfRhoIDeriv(G @ u, v).  Nodal (simulation.py:500-509):
Grad.T @ MeSigmaDeriv(Grad @ u, v).  The property-map derivative at a fixed
linearization point is the collaborator's matrix, applied to v. -/
def getADeriv {nU nF nM : ℕ} : DCForm nU nF nM → (Fin nU → ℚ) → (Fin nM → ℚ)
    → Fin nU → ℚ
  | DCForm.cc Div Grad Mder, u, v => Div *ᵥ (Mder (Grad *ᵥ u) *ᵥ v)
  | DCForm.nodal Grad Mder, u, v => Gradᵀ *ᵥ (Mder (Grad *ᵥ u) *ᵥ v)

/-- getADeriv, adjoint mode.  Cell-centered: MfRhoIDeriv(G @ u, D.T @ v,
adjoint) = transpose applied.  Nodal: MeSigmaDeriv(Grad @ u, Grad @ v,
adjoint). -/
def getADerivAdjoint {nU nF nM : ℕ} : DCForm nU nF nM → (Fin nU → ℚ)
    → (Fin nU → ℚ) → Fin nM → ℚ
  | DCForm.cc Div Grad Mder, u, w => (Mder (Grad *ᵥ u))ᵀ *ᵥ (Divᵀ *ᵥ w)
  | DCForm.nodal Grad Mder, u, w => (Mder (Grad *ᵥ u))ᵀ *ᵥ (Grad *ᵥ w)

/-- The matrix of the linear map v ↦ getADeriv(u, v). -/
def getADerivMat {nU nF nM : ℕ} : DCForm nU nF nM → (Fin nU → ℚ)
    → Matrix (Fin nU) (Fin nM) ℚ
  | DCForm.cc Div Grad Mder, u => Div * Mder (Grad *ᵥ u)
  | DCForm.nodal Grad Mder, u => Gradᵀ * Mder (Grad *ᵥ u)

theorem getADeriv_eq_mulVec {nU nF nM : ℕ} (form : DCForm nU nF nM)
    (u : Fin nU → ℚ) (v : Fin nM → ℚ) :
    getADeriv form u v = getADerivMat form u *ᵥ v := by
  cases form <;> simp [getADeriv, getADerivMat, Matrix.mulVec_mulVec]

theorem getADerivAdjoint_eq_mulVec {nU nF nM : ℕ} (form : DCForm nU nF nM)
    (u : Fin nU → ℚ) (w : Fin nU → ℚ) :
    getADerivAdjoint form u w = (getADerivMat form u)ᵀ *ᵥ w := by
  cases form <;>
    simp [getADerivAdjoint, getADerivMat, Matrix.transpose_mul,
      Matrix.mulVec_mulVec]

/-- getRHSDeriv (simulation.py:318-325, 520-527) returns Zero(): the source
term does not depend on the model. -/
def getRHSDeriv (nOut : ℕ) : Fin nOut → ℚ := 0

/-- One simulation instance as the sensitivity loops see it: the
mini-survey index data, the formulation, the cached factorization, and per
datum row of the (mini) survey the source field solution, the receiver
projection row and the field-container derivative matrices. -/
structure DCSim (nFull nMini nU nF nM : ℕ) where
  ms : MiniSurvey nFull nMini
  form : DCForm nU nF nM
  Ainv : Matrix (Fin nU) (Fin nU) ℚ
  uSrc : Fin nMini → Fin nU → ℚ
  P : Fin nMini → Fin nU → ℚ
  Fu : Fin nMini → Matrix (Fin nU) (Fin nU) ℚ
  Fm : Fin nMini → Matrix (Fin nU) (Fin nM) ℚ

/-- Jvec with storeJ=False (simulation.py:108-126): per source,
du_dm_v = Ainv * (-dA_dm_v + dRHS_dm_v); per receiver the field derivative
forward mode then the receiver evaluation; hstack in survey order, then
_mini_survey_data. -/
def JvecOnTheFly {nFull nMini nU nF nM : ℕ} (sim : DCSim nFull nMini nU nF nM)
    (v : Fin nM → ℚ) : Fin nFull → ℚ :=
  miniSurveyData sim.ms fun d =>
    let u_source := sim.uSrc d
    let dA_dm_v := getADeriv sim.form u_source v
    let dRHS_dm_v := getRHSDeriv nU
    let du_dm_v := sim.Ainv *ᵥ (-dA_dm_v + dRHS_dm_v)
    let df_dm_v := sim.Fu d *ᵥ du_dm_v + sim.Fm d *ᵥ v
    dotProduct (sim.P d) df_dm_v

/-- _Jtvec with v given (simulation.py:150-197): v is reduced by
_mini_survey_dataT, then per datum row PTv = (reduced slice) • P,
df_duT = Fuᵀ PTv, df_dmT = Fmᵀ PTv, ATinvdf_duT = Ainv * df_duT,
du_dmT = -dA_dmT + dRHS_dmT, and Jtv accumulates df_dmT + du_dmT. -/
def JtvecOnTheFly {nFull nMini nU nF nM : ℕ} (sim : DCSim nFull nMini nU nF nM)
    (w : Fin nFull → ℚ) : Fin nM → ℚ :=
  let vred := miniSurveyDataT sim.ms w
  ∑ d, (let PTv := vred d • sim.P d
        let df_duT := (sim.Fu d)ᵀ *ᵥ PTv
        let df_dmT := (sim.Fm d)ᵀ *ᵥ PTv
        let ATinvdf_duT := sim.Ainv *ᵥ df_duT
        let dA_dmT := getADerivAdjoint sim.form (sim.uSrc d) ATinvdf_duT
        let dRHS_dmT := getRHSDeriv nM
        let du_dmT := -dA_dmT + dRHS_dmT
        df_dmT + du_dmT)

/-- _Jtvec with v=None (simulation.py:160-194): PTv is the full Pᵀ, so the
column of Jtv for datum row d is obtained from the row P d; the columns
istrt:iend are filled per receiver. -/
def JtvecColumns {nFull nMini nU nF nM : ℕ} (sim : DCSim nFull nMini nU nF nM) :
    Matrix (Fin nM) (Fin nMini) ℚ :=
  fun j d =>
    (let PTv := sim.P d
     let df_duT := (sim.Fu d)ᵀ *ᵥ PTv
     let df_dmT := (sim.Fm d)ᵀ *ᵥ PTv
     let ATinvdf_duT := sim.Ainv *ᵥ df_duT
     let dA_dmT := getADerivAdjoint sim.form (sim.uSrc d) ATinvdf_duT
     let dRHS_dmT := getRHSDeriv nM
     let du_dmT := -dA_dmT + dRHS_dmT
     df_dmT + du_dmT) j

/-- getJ (simulation.py:56-61): Jmatrix = _Jtvec(m, v=None, f).T, where
_Jtvec v=None returns (_mini_survey_data(Jtv.T)).T — the expansion applied
along the mini-data axis of the materialized columns. -/
def getJ {nFull nMini nU nF nM : ℕ} (sim : DCSim nFull nMini nU nF nM) :
    Matrix (Fin nFull) (Fin nM) ℚ :=
  fun i j => miniSurveyData sim.ms (fun d => JtvecColumns sim j d) i

/-- Jvec with storeJ=True (simulation.py:104-106): J.dot(v). -/
def JvecStored {nFull nMini nU nF nM : ℕ} (sim : DCSim nFull nMini nU nF nM)
    (v : Fin nM → ℚ) : Fin nFull → ℚ :=
  getJ sim *ᵥ v

/-- Jtvec with storeJ=True (simulation.py:138-140): J.T.dot(v). -/
def JtvecStored {nFull nMini nU nF nM : ℕ} (sim : DCSim nFull nMini nU nF nM)
    (w : Fin nFull → ℚ) : Fin nM → ℚ :=
  (getJ sim)ᵀ *ᵥ w

/-- The mini-survey Jacobian row of datum d when the factorization is
applied as the matrix S: P_d ᵥ* (Fm_d − Fu_d·S·(dA/dm at u_d)).  The
forward path realizes it with S = Ainv, the adjoint/materialize path with
S = Ainvᵀ. -/
def sensRowMat {nFull nMini nU nF nM : ℕ} (sim : DCSim nFull nMini nU nF nM)
    (S : Matrix (Fin nU) (Fin nU) ℚ) : Matrix (Fin nMini) (Fin nM) ℚ :=
  fun d => sim.P d ᵥ* (sim.Fm d - sim.Fu d * S * getADerivMat sim.form (sim.uSrc d))

theorem JvecOnTheFly_eq {nFull nMini nU nF nM : ℕ}
    (sim : DCSim nFull nMini nU nF nM) (v : Fin nM → ℚ) :
    JvecOnTheFly sim v
      = miniSurveyMatrix sim.ms *ᵥ (sensRowMat sim sim.Ainv *ᵥ v) := by
  unfold JvecOnTheFly
  rw [miniSurveyData_eq_mulVec]
  have hrow : (fun d =>
      let u_source := sim.uSrc d
      let dA_dm_v := getADeriv sim.form u_source v
      let dRHS_dm_v := getRHSDeriv nU
      let du_dm_v := sim.Ainv *ᵥ (-dA_dm_v + dRHS_dm_v)
      let df_dm_v := sim.Fu d *ᵥ du_dm_v + sim.Fm d *ᵥ v
      dotProduct (sim.P d) df_dm_v)
      = sensRowMat sim sim.Ainv *ᵥ v := by
    funext d
    show dotProduct (sim.P d)
        (sim.Fu d *ᵥ (sim.Ainv *ᵥ (-(getADeriv sim.form (sim.uSrc d) v)
            + getRHSDeriv nU))
          + sim.Fm d *ᵥ v)
        = dotProduct (sensRowMat sim sim.Ainv d) v
    have hz : (getRHSDeriv nU : Fin nU → ℚ) = 0 := rfl
    rw [getADeriv_eq_mulVec, hz, add_zero, Matrix.mulVec_neg, Matrix.mulVec_neg,
      Matrix.mulVec_mulVec, Matrix.mulVec_mulVec,
      neg_add_eq_sub, ← Matrix.sub_mulVec, Matrix.dotProduct_mulVec]
    rfl
  rw [hrow]

theorem JtvecColumns_eq {nFull nMini nU nF nM : ℕ}
    (sim : DCSim nFull nMini nU nF nM) (j : Fin nM) (d : Fin nMini) :
    JtvecColumns sim j d = sensRowMat sim sim.Ainvᵀ d j := by
  show ((sim.Fm d)ᵀ *ᵥ sim.P d
      + (-(getADerivAdjoint sim.form (sim.uSrc d)
            (sim.Ainv *ᵥ ((sim.Fu d)ᵀ *ᵥ sim.P d)))
          + getRHSDeriv nM)) j
    = sensRowMat sim sim.Ainvᵀ d j
  have hz : (getRHSDeriv nM : Fin nM → ℚ) = 0 := rfl
  rw [getADerivAdjoint_eq_mulVec, hz, add_zero, Matrix.mulVec_mulVec,
    Matrix.mulVec_mulVec, sensRowMat]
  have hmat : (getADerivMat sim.form (sim.uSrc d))ᵀ * sim.Ainv * (sim.Fu d)ᵀ
      = (sim.Fu d * sim.Ainvᵀ * getADerivMat sim.form (sim.uSrc d))ᵀ := by
    rw [Matrix.transpose_mul, Matrix.transpose_mul, Matrix.transpose_transpose,
      Matrix.mul_assoc]
  rw [hmat, Matrix.mulVec_transpose, Matrix.mulVec_transpose,
    Matrix.vecMul_sub]
  simp [sub_eq_add_neg]

theorem getJ_eq {nFull nMini nU nF nM : ℕ} (sim : DCSim nFull nMini nU nF nM) :
    getJ sim = miniSurveyMatrix sim.ms * sensRowMat sim sim.Ainvᵀ := by
  funext i j
  show miniSurveyData sim.ms (fun d => JtvecColumns sim j d) i = _
  rw [miniSurveyData_eq_mulVec]
  show dotProduct (miniSurveyMatrix sim.ms i) (fun d => JtvecColumns sim j d)
    = _
  rw [Matrix.mul_apply]
  refine Finset.sum_congr rfl ?_
  intro d _
  show miniSurveyMatrix sim.ms i d * JtvecColumns sim j d
    = miniSurveyMatrix sim.ms i d * sensRowMat sim sim.Ainvᵀ d j
  rw [JtvecColumns_eq]

theorem JtvecOnTheFly_eq {nFull nMini nU nF nM : ℕ}
    (sim : DCSim nFull nMini nU nF nM) (w : Fin nFull → ℚ) :
    JtvecOnTheFly sim w
      = (sensRowMat sim sim.Ainvᵀ)ᵀ *ᵥ miniSurveyDataT sim.ms w := by
  unfold JtvecOnTheFly
  funext j
  rw [Finset.sum_apply]
  have hterm : ∀ d : Fin nMini,
      ((sim.Fm d)ᵀ *ᵥ (miniSurveyDataT sim.ms w d • sim.P d)
        + (-(getADerivAdjoint sim.form (sim.uSrc d)
              (sim.Ainv *ᵥ ((sim.Fu d)ᵀ *ᵥ (miniSurveyDataT sim.ms w d • sim.P d))))
            + getRHSDeriv nM)) j
      = miniSurveyDataT sim.ms w d * sensRowMat sim sim.Ainvᵀ d j := by
    intro d
    have hsm : ∀ (A : Matrix (Fin nM) (Fin nU) ℚ) (c : ℚ) (x : Fin nU → ℚ),
        A *ᵥ (c • x) = c • (A *ᵥ x) := fun A c x => Matrix.mulVec_smul A c x
    rw [Matrix.mulVec_smul, Matrix.mulVec_smul, Matrix.mulVec_smul,
      getADerivAdjoint_eq_mulVec, Matrix.mulVec_smul]
    have := JtvecColumns_eq sim j d
    rw [← this]
    show (miniSurveyDataT sim.ms w d • ((sim.Fm d)ᵀ *ᵥ sim.P d)
        + (-(miniSurveyDataT sim.ms w d
              • ((getADerivMat sim.form (sim.uSrc d))ᵀ
                  *ᵥ (sim.Ainv *ᵥ ((sim.Fu d)ᵀ *ᵥ sim.P d))))
            + getRHSDeriv nM)) j
      = miniSurveyDataT sim.ms w d * JtvecColumns sim j d
    have hz : (getRHSDeriv nM : Fin nM → ℚ) = 0 := rfl
    rw [hz, add_zero, ← smul_neg, ← smul_add]
    show miniSurveyDataT sim.ms w d
        * (((sim.Fm d)ᵀ *ᵥ sim.P d
            + -((getADerivMat sim.form (sim.uSrc d))ᵀ
                *ᵥ (sim.Ainv *ᵥ ((sim.Fu d)ᵀ *ᵥ sim.P d)))) j)
      = miniSurveyDataT sim.ms w d * JtvecColumns sim j d
    congr 1
    show (((sim.Fm d)ᵀ *ᵥ sim.P d)
        + -((getADerivMat sim.form (sim.uSrc d))ᵀ
            *ᵥ (sim.Ainv *ᵥ ((sim.Fu d)ᵀ *ᵥ sim.P d)))) j
      = JtvecColumns sim j d
    show (((sim.Fm d)ᵀ *ᵥ sim.P d)
        + -((getADerivMat sim.form (sim.uSrc d))ᵀ
            *ᵥ (sim.Ainv *ᵥ ((sim.Fu d)ᵀ *ᵥ sim.P d)))) j
      = ((sim.Fm d)ᵀ *ᵥ sim.P d
          + (-(getADerivAdjoint sim.form (sim.uSrc d)
                (sim.Ainv *ᵥ ((sim.Fu d)ᵀ *ᵥ sim.P d)))
              + getRHSDeriv nM)) j
    rw [getADerivAdjoint_eq_mulVec]
    have hz2 : (getRHSDeriv nM : Fin nM → ℚ) = 0 := rfl
    rw [hz2, add_zero]
  calc (∑ d, ((sim.Fm d)ᵀ *ᵥ (miniSurveyDataT sim.ms w d • sim.P d)
        + (-(getADerivAdjoint sim.form (sim.uSrc d)
              (sim.Ainv *ᵥ ((sim.Fu d)ᵀ
                  *ᵥ (miniSurveyDataT sim.ms w d • sim.P d))))
            + getRHSDeriv nM)) j)
      = ∑ d, miniSurveyDataT sim.ms w d * sensRowMat sim sim.Ainvᵀ d j :=
        Finset.sum_congr rfl fun d _ => hterm d
    _ = ((sensRowMat sim sim.Ainvᵀ)ᵀ *ᵥ miniSurveyDataT sim.ms w) j := by
        simp only [Matrix.mulVec, dotProduct, Matrix.transpose_apply]
        exact Finset.sum_congr rfl fun d _ => mul_comm _ _

theorem mulVec_adjoint_pair {m n : ℕ} (A : Matrix (Fin m) (Fin n) ℚ)
    (v : Fin n → ℚ) (w : Fin m → ℚ) :
    dotProduct (A *ᵥ v) w = dotProduct v (Aᵀ *ᵥ w) := by
  rw [dotProduct_comm, Matrix.dotProduct_mulVec, dotProduct_comm,
    Matrix.mulVec_transpose]

/-- Claim C4 (amended): Jtvec computed with storeJ=true (a stored-matrix
transpose product with the Jacobian materialized column-by-column by _Jtvec
with v=None) equals Jtvec computed with storeJ=false, unconditionally —
both paths apply Ainv identically.  Jvec with storeJ=true equals Jvec with
storeJ=false whenever the cached factorization matrix is symmetric (the SPD
case the shared-factorization adjoint solve is designed around); without
symmetry the two Jvec paths can differ (see the counterexample with the
first-row-pivoted nodal operator). -/
theorem claim_C4 {nFull nMini nU nF nM : ℕ} (sim : DCSim nFull nMini nU nF nM) :
    (∀ w, JtvecStored sim w = JtvecOnTheFly sim w)
      ∧ (sim.Ainvᵀ = sim.Ainv →
          ∀ v, JvecStored sim v = JvecOnTheFly sim v) := by
  constructor
  · intro w
    rw [JtvecOnTheFly_eq, JtvecStored, getJ_eq, miniSurveyDataT_eq_vecMul,
      Matrix.mulVec_transpose, Matrix.mulVec_transpose, Matrix.vecMul_vecMul]
  · intro hS v
    rw [JvecOnTheFly_eq, JvecStored, getJ_eq, hS, Matrix.mulVec_mulVec]

/-- Claim C5 (amended): the storeJ=true forward and adjoint sensitivity
products are mutually adjoint unconditionally — they multiply by the same
stored matrix and its transpose; the storeJ=false pair satisfies
dot(Jvec(m, v), w) = dot(v, Jtvec(m, w)) whenever the cached factorization
matrix is symmetric, and fails for the nonsymmetric pivoted nodal operator;
the formulation (cell-centered or nodal) enters only through getADerivMat
and is arbitrary here. -/
theorem claim_C5 {nFull nMini nU nF nM : ℕ} (sim : DCSim nFull nMini nU nF nM)
    (v : Fin nM → ℚ) (w : Fin nFull → ℚ) :
    (dotProduct (JvecStored sim v) w = dotProduct v (JtvecStored sim w))
      ∧ (sim.Ainvᵀ = sim.Ainv →
          dotProduct (JvecOnTheFly sim v) w
            = dotProduct v (JtvecOnTheFly sim w)) := by
  constructor
  · exact mulVec_adjoint_pair (getJ sim) v w
  · intro hS
    rw [JvecOnTheFly_eq, JtvecOnTheFly_eq, miniSurveyDataT_eq_vecMul, hS,
      Matrix.mulVec_mulVec, mulVec_adjoint_pair]
    congr 1
    rw [Matrix.transpose_mul, ← Matrix.mulVec_mulVec, Matrix.mulVec_transpose,
      Matrix.mulVec_transpose, Matrix.mulVec_transpose]

/-! Concrete instances: a 2-node nodal simulation whose factorization is the
exact inverse of the first-row-pivoted operator (nonsymmetric), and a 1-cell
cell-centered simulation with a symmetric factorization. -/

/-- Passthrough mini survey with a single pole-pole datum. -/
def msTriv : MiniSurvey 1 1 :=
  { invs0 := ![0], invs1 := ![0], invs2 := ![0], invs3 := ![0],
    dip0 := ![false], dip1 := ![false] }

def gradNodal : Matrix (Fin 1) (Fin 2) ℚ := ![![1, -1]]

def meSigmaNodal : Matrix (Fin 1) (Fin 1) ℚ := ![![1]]

def mderNodal : (Fin 1 → ℚ) → Matrix (Fin 1) (Fin 1) ℚ := fun x => ![![x 0]]

/-- The exact inverse of nodalGetA meSigmaNodal gradNodal = [[1,0],[-1,1]]. -/
def ainvNodal : Matrix (Fin 2) (Fin 2) ℚ := ![![1, 0], ![1, 1]]

/-- A nodal simulation state reachable by the code: u = Ainv q for
q = (1, -1), receiver sampling the second node, field derivative the
identity (potential is the solution itself). -/
def simNodal : DCSim 1 1 2 1 1 :=
  { ms := msTriv, form := DCForm.nodal gradNodal mderNodal, Ainv := ainvNodal,
    uSrc := fun _ => ![1, 0], P := fun _ => ![0, 1],
    Fu := fun _ => 1, Fm := fun _ => 0 }

theorem simNodal_Ainv_inverse :
    ainvNodal * nodalGetA meSigmaNodal gradNodal = 1
      ∧ nodalGetA meSigmaNodal gradNodal * ainvNodal = 1 := by
  constructor <;>
    · ext i j
      fin_cases i <;> fin_cases j <;>
        norm_num [nodalGetA, setUnitPivot, zeroFirstRow, ainvNodal,
          meSigmaNodal, gradNodal, Matrix.mul_apply, Matrix.transpose_apply,
          Fin.sum_univ_succ, Fin.sum_univ_zero, Matrix.cons_val_zero,
          Matrix.cons_val_one, Matrix.head_cons, Matrix.cons_val_succ,
          Matrix.one_apply]

theorem simNodal_JvecOnTheFly_val : JvecOnTheFly simNodal ![1] 0 = 0 := by
  rw [JvecOnTheFly_eq]
  norm_num [miniSurveyMatrix, msTriv, simNodal, sensRowMat, getADerivMat,
    gradNodal, mderNodal, ainvNodal, Matrix.mulVec, Matrix.vecMul, dotProduct,
    Matrix.mul_apply, Matrix.transpose_apply, Fin.sum_univ_succ,
    Fin.sum_univ_zero, Matrix.cons_val_zero, Matrix.cons_val_one,
    Matrix.head_cons, Matrix.cons_val_succ, Matrix.one_apply, Fin.ext_iff]

theorem simNodal_JvecStored_val : JvecStored simNodal ![1] 0 = 1 := by
  rw [JvecStored, getJ_eq]
  norm_num [miniSurveyMatrix, msTriv, simNodal, sensRowMat, getADerivMat,
    gradNodal, mderNodal, ainvNodal, Matrix.mulVec, Matrix.vecMul, dotProduct,
    Matrix.mul_apply, Matrix.transpose_apply, Fin.sum_univ_succ,
    Fin.sum_univ_zero, Matrix.cons_val_zero, Matrix.cons_val_one,
    Matrix.head_cons, Matrix.cons_val_succ, Matrix.one_apply, Fin.ext_iff]

theorem simNodal_JtvecOnTheFly_val : JtvecOnTheFly simNodal ![1] 0 = 1 := by
  rw [JtvecOnTheFly_eq]
  norm_num [miniSurveyDataT, msTriv, simNodal, sensRowMat, getADerivMat,
    gradNodal, mderNodal, ainvNodal, Matrix.mulVec, Matrix.vecMul, dotProduct,
    Matrix.mul_apply, Matrix.transpose_apply, Fin.sum_univ_succ,
    Fin.sum_univ_zero, Matrix.cons_val_zero, Matrix.cons_val_one,
    Matrix.head_cons, Matrix.cons_val_succ, Matrix.one_apply, Fin.ext_iff]

/-- Counterexample to claim C4 as stated: for the nodal formulation the
first-row pivot makes A nonsymmetric, and with Ainv the exact inverse of
the pivoted operator (both products with nodalGetA are the identity), the
stored-J Jvec and the on-the-fly Jvec differ at v = (1). -/
theorem claim_C4_counterexample :
    (ainvNodal * nodalGetA meSigmaNodal gradNodal = 1
        ∧ nodalGetA meSigmaNodal gradNodal * ainvNodal = 1)
      ∧ JvecStored simNodal ![1] ≠ JvecOnTheFly simNodal ![1] := by
  refine ⟨simNodal_Ainv_inverse, ?_⟩
  intro h
  have hv := congrFun h 0
  rw [simNodal_JvecStored_val, simNodal_JvecOnTheFly_val] at hv
  norm_num at hv

/-- Counterexample to claim C5 as stated: on the same pivoted-nodal
instance, dot(Jvec(v), w) = 0 but dot(v, Jtvec(w)) = 1 for the storeJ=false
path at v = w = (1). -/
theorem claim_C5_counterexample :
    dotProduct (JvecOnTheFly simNodal ![1]) ![1]
      ≠ dotProduct ![1] (JtvecOnTheFly simNodal ![1]) := by
  have h1 : dotProduct (JvecOnTheFly simNodal ![1]) ![1] = 0 := by
    simp [dotProduct, Fin.sum_univ_one, simNodal_JvecOnTheFly_val]
  have h2 : dotProduct ![1] (JtvecOnTheFly simNodal ![1]) = 1 := by
    simp [dotProduct, Fin.sum_univ_one, simNodal_JtvecOnTheFly_val]
  rw [h1, h2]
  norm_num

/-- A 1-cell cell-centered simulation with symmetric factorization. -/
def simCC : DCSim 1 1 1 1 1 :=
  { ms := msTriv, form := DCForm.cc ![![1]] ![![1]] (fun x => ![![x 0]]),
    Ainv := ![![1]], uSrc := fun _ => ![1], P := fun _ => ![1],
    Fu := fun _ => 1, Fm := fun _ => 0 }

theorem simCC_Ainv_symm : simCC.Ainvᵀ = simCC.Ainv := by
  ext i j
  fin_cases i <;> fin_cases j <;> rfl

/-- Witness for the amended claim C4: the Jtvec equality at the pivoted
nodal instance (no hypothesis needed) and, at the concrete symmetric
cell-centered instance, the symmetry hypothesis discharged together with
the Jvec equality. -/
theorem claim_C4_witness :
    JtvecStored simNodal ![1] = JtvecOnTheFly simNodal ![1]
      ∧ simCC.Ainvᵀ = simCC.Ainv
      ∧ JvecStored simCC ![1] = JvecOnTheFly simCC ![1] :=
  ⟨(claim_C4 simNodal).1 ![1], simCC_Ainv_symm,
    (claim_C4 simCC).2 simCC_Ainv_symm ![1]⟩

/-- Witness for the amended claim C5: the storeJ=true adjoint identity at
the pivoted nodal instance (no hypothesis needed) and, at the concrete
symmetric cell-centered instance, the symmetry hypothesis discharged
together with the storeJ=false adjoint identity. -/
theorem claim_C5_witness :
    (dotProduct (JvecStored simNodal ![1]) ![1]
        = dotProduct ![1] (JtvecStored simNodal ![1]))
      ∧ simCC.Ainvᵀ = simCC.Ainv
      ∧ dotProduct (JvecOnTheFly simCC ![1]) ![1]
          = dotProduct ![1] (JtvecOnTheFly simCC ![1]) :=
  ⟨(claim_C5 simNodal ![1] ![1]).1, simCC_Ainv_symm,
    (claim_C5 simCC ![1] ![1]).2 simCC_Ainv_symm⟩

end SimPEGDC
